import Mathlib

/-!
Verification of the point-cloud post-processing core of the
MultiModalDatasetBridges repository.

The development shallowly embeds the relevant source functions:

* `src/PointCloudSimulation/convert_to_npy.py`
  - `farthest_point_sample` (lines 11-32)
  - `pc_norm`               (lines 34-45)
  - `convert_bridge_data`   (lines 48-118), including the `np.loadtxt`
    shape-squeezing behaviour, the format dispatch on `data.shape[1]`,
    the optional colour padding, and the 8192-point resampling step.
* `src/PointCloudSimulation/run_simulations.py`
  - the leg-file merge-and-group loop inside
    `pointcloud_complete_pipeline` (lines 122-155).

Numeric values carried by point rows are embedded as exact rationals in
the discrete stages (selection, slicing, resampling) and as real numbers
in the analytic normalisation stage; the single floating-point behaviour
that matters to a claim (division by a zero divisor in `pc_norm`) is
modelled explicitly with IEEE-style `nan`/`inf` results.  Randomness
(`np.random.choice`, `np.random.randint`) is modelled by passing the
drawn indices as explicit arguments, constrained by the distributions'
support (length, bounds, distinctness where `replace=False`).
-/

/- ### Farthest point sampling (`farthest_point_sample`, lines 11-32) -/

/-- Squared Euclidean distance over the spatial `(x,y,z)` prefix of two rows;
embeds `np.sum((xyz - centroid) ** 2, -1)` for one row, where `xyz = point[:,:3]`. -/
def sqDist3 (p c : List ℚ) : ℚ :=
  (p.getD 0 0 - c.getD 0 0) ^ 2 + (p.getD 1 0 - c.getD 1 0) ^ 2
    + (p.getD 2 0 - c.getD 2 0) ^ 2

/-- Helper for `npArgmax`: scans the remaining list, keeping the first index
attaining the running maximum (`np.argmax` returns the first maximiser). -/
def argmaxAux : List ℚ → ℕ → ℕ → ℚ → ℕ
  | [], _, bi, _ => bi
  | x :: xs, i, bi, bv =>
    if bv < x then argmaxAux xs (i + 1) i x else argmaxAux xs (i + 1) bi bv

/-- Embeds `np.argmax` on a 1-D array: index of the first occurrence of the
maximum (ties favour the lowest index).  `np.argmax` errors on an empty
array; that case is never reached here and is mapped to `0`. -/
def npArgmax : List ℚ → ℕ
  | [] => 0
  | x :: xs => argmaxAux xs 1 0 x

/-- The selection loop of `farthest_point_sample` (lines 24-30): at each step
record the current `farthest` index, recompute squared distances to it, take
the pointwise minimum with the running distance array
(`mask = dist < distance; distance[mask] = dist[mask]`), and pick the next
index by `np.argmax`. -/
def fpsSelect (xyz : List (List ℚ)) : ℕ → List ℚ → ℕ → List ℕ
  | 0, _, _ => []
  | k + 1, distance, farthest =>
    let centroid := xyz.getD farthest []
    let dist := xyz.map (fun p => sqDist3 p centroid)
    let distance' := List.zipWith min dist distance
    farthest :: fpsSelect xyz k distance' (npArgmax distance')

/-- Embeds `farthest_point_sample(point, npoint)` (lines 11-32).  The initial
index `init` models `np.random.randint(0, N)`; the distance array starts at
`1e10` for every point; the selected indices finally gather rows of `point`. -/
def farthest_point_sample (point : List (List ℚ)) (npoint : ℕ) (init : ℕ) :
    List (List ℚ) :=
  let distance := List.replicate point.length ((10 : ℚ) ^ 10)
  (fpsSelect point npoint distance init).map (fun i => point.getD i [])

/- ### Resampling step of `convert_bridge_data` (lines 91-104) -/

/-- Embeds the cardinality-adjustment step of `convert_bridge_data`
(lines 91-104); the source inlines `npoint = 8192`.  `idx` models the result
of `np.random.choice(len(point_cloud), npoint, ...)`: in the downsampling
branch (`replace=False`) it is a list of `npoint` distinct valid indices, in
the upsampling branch (`replace=True`) a list of `npoint` valid indices.
When `len(point_cloud) == npoint` neither branch runs and the array is
returned unchanged. -/
def resample (npoint : ℕ) (pc : List (List ℚ)) (idx : List ℕ) : List (List ℚ) :=
  if npoint < pc.length then idx.map (fun i => pc.getD i [])
  else if pc.length < npoint then idx.map (fun i => pc.getD i [])
  else pc

/- ### Loading and format dispatch (`convert_bridge_data`, lines 66-89) -/

/-- Result of `np.loadtxt` with default `ndmin=0`: mono-dimensional axes are
squeezed, so a single row of several values loads as a 1-D array, a single
column loads as a 1-D array, and a single value loads as a 0-D array. -/
inductive NpArr where
  | zeroD (v : ℚ)
  | oneD (vs : List ℚ)
  | twoD (rows : List (List ℚ))
deriving DecidableEq

/-- Error outcomes of `convert_bridge_data`, distinguishing the raised
exceptions from the early `return` with a printed warning:
`raggedInput` models `np.loadtxt` failing on rows of unequal width;
`sampleAccessError` models the `data[0][:5]` diagnostic on line 67 raising on
a 0-D or 1-D (squeezed) array; `shapeIndexError` models `data.shape[1]`
raising `IndexError` on line 70 for an array with fewer than 2 dimensions;
`unsupportedFormat w` models the reported format warning and early return of
lines 80-82. -/
inductive ConvErr where
  | raggedInput
  | sampleAccessError
  | shapeIndexError
  | unsupportedFormat (w : ℕ)
deriving DecidableEq

/-- True when all rows have the width of the first row. -/
def uniformWidth (rows : List (List ℚ)) : Bool :=
  rows.all (fun r => r.length = (rows.headD []).length)

/-- Embeds `np.loadtxt(input_file, delimiter=' ')` (line 66) acting on the
already-parsed numeric rows of the text file: ragged rows raise, and
mono-dimensional axes are squeezed as described at `NpArr`. -/
def npLoadtxt (rows : List (List ℚ)) : Except ConvErr NpArr :=
  if uniformWidth rows then
    match rows with
    | [] => .ok (.oneD [])
    | [r] =>
      match r with
      | [v] => .ok (.zeroD v)
      | _ => .ok (.oneD r)
    | _ =>
      if (rows.headD []).length = 1 then
        .ok (.oneD (rows.map (fun r => r.headD 0)))
      else .ok (.twoD rows)
  else .error .raggedInput

/-- Embeds the diagnostic `data[0][:5]` on line 67: on a 2-D array it slices
the first row and succeeds; on a 1-D array `data[0]` is a scalar and the
slice raises `TypeError`; on a 0-D array (or an empty one) `data[0]` itself
raises `IndexError`. -/
def npSampleCheck : NpArr → Except ConvErr Unit
  | .twoD (_ :: _) => .ok ()
  | _ => .error .sampleAccessError

/-- Embeds the format dispatch of lines 70-82 on the loaded array.
`data.shape[1]` raises on an array of fewer than 2 dimensions; otherwise an
11-column table selects columns `[0,1,2,3,7]`, a 6-column table divides
columns 3-5 by `255.0` in place, and any other width is the reported
unsupported-format warning followed by `return`. -/
def formatResolve : NpArr → Except ConvErr (List (List ℚ))
  | .twoD rows =>
    let w := (rows.headD []).length
    if w = 11 then
      .ok (rows.map (fun r =>
        [r.getD 0 0, r.getD 1 0, r.getD 2 0, r.getD 3 0, r.getD 7 0]))
    else if w = 6 then
      .ok (rows.map (fun r => r.take 3 ++ (r.drop 3).map (fun q => q / 255)))
    else .error (.unsupportedFormat w)
  | _ => .error .shapeIndexError

/-- Embeds the optional colour padding of lines 84-89: keep the spatial
columns `point_cloud[:, :3]` and concatenate three zero-valued channels. -/
def addColorPad (pc : List (List ℚ)) : List (List ℚ) :=
  pc.map (fun r => r.take 3 ++ [0, 0, 0])

/- ### Normalisation (`pc_norm`, lines 34-45) -/

/-- Spatial triple `(x, y, z)`; `v.1`, `v.2.1`, `v.2.2` are the components. -/
abbrev V3 := ℝ × ℝ × ℝ

/-- Squared spatial norm, `np.sum(xyz ** 2, axis=1)` for one row. -/
def sqNorm (v : V3) : ℝ := v.1 ^ 2 + v.2.1 ^ 2 + v.2.2 ^ 2

/-- Euclidean norm of a spatial triple, `np.sqrt(np.sum(xyz ** 2, axis=1))`
for one row. -/
noncomputable def v3norm (v : V3) : ℝ := Real.sqrt (sqNorm v)

/-- Componentwise division of a spatial triple by a scalar (`xyz / m`). -/
noncomputable def v3div (v : V3) (m : ℝ) : V3 := (v.1 / m, v.2.1 / m, v.2.2 / m)

/-- Embeds `np.mean(xyz, axis=0)`: componentwise sum divided by the length
(`np.mean` of an empty array yields an invalid-value warning; the pipeline
only reaches it with nonempty data). -/
noncomputable def npMean3 (l : List V3) : V3 := v3div l.sum (l.length : ℝ)

/-- Embeds `np.max` on a 1-D array: the running maximum over the list.
`np.max` raises on an empty array; that case is mapped to `0` and is never
reached under the nonemptiness hypotheses of the theorems below. -/
noncomputable def npMaxR : List ℝ → ℝ
  | [] => 0
  | x :: xs => xs.foldl max x

/-- Point rows for `pc_norm`: an `N x C` array with `C >= 3` is split as
`pc[:, :3]` (the spatial triple) and `pc[:, 3:]` (the attribute channels). -/
abbrev PCRow := V3 × List ℝ

/-- The spatial block `xyz = pc[:, :3]` (line 36). -/
def pcXyz (pc : List PCRow) : List V3 := pc.map Prod.fst

/-- The attribute block `other_feature = pc[:, 3:]` (line 37). -/
def pcAttrs (pc : List PCRow) : List (List ℝ) := pc.map Prod.snd

/-- The centroid `np.mean(xyz, axis=0)` (line 39). -/
noncomputable def pcCentroid (pc : List PCRow) : V3 := npMean3 (pcXyz pc)

/-- The centred spatial block `xyz = xyz - centroid` (line 40). -/
noncomputable def pcCentered (pc : List PCRow) : List V3 :=
  (pcXyz pc).map (fun v => v - pcCentroid pc)

/-- The normalisation divisor
`m = np.max(np.sqrt(np.sum(xyz ** 2, axis=1)))` (line 41). -/
noncomputable def normDivisor (pc : List PCRow) : ℝ :=
  npMaxR ((pcCentered pc).map v3norm)

/-- Embeds `pc_norm` (lines 34-45) in exact real arithmetic: centre the
spatial block, divide by `m`, and concatenate the attribute channels back
unchanged (`np.concatenate((xyz, other_feature), axis=1)`).  Real division
by zero returns `0` in Lean; the IEEE behaviour of the `m = 0` corner is
modelled separately by `pc_normF`. -/
noncomputable def pc_norm (pc : List PCRow) : List PCRow :=
  ((pcCentered pc).map (fun v => v3div v (normDivisor pc))).zip (pcAttrs pc)

/-- Value of a floating-point division: a finite real, or one of the IEEE
non-finite results `nan`, `inf`, `-inf`. -/
inductive FV where
  | fin (x : ℝ)
  | nan
  | pinf
  | ninf

/-- IEEE semantics of `a / m` for finite `a`, `m` as performed by numpy:
`0/0` is `nan`, `a/0` for `a != 0` is a signed infinity (with a
RuntimeWarning, not an exception), and otherwise the finite quotient. -/
noncomputable def fdiv (a m : ℝ) : FV :=
  if m = 0 then (if a = 0 then .nan else if 0 < a then .pinf else .ninf)
  else .fin (a / m)

/-- Embeds `pc_norm` with the floating-point semantics of the division on
line 42 made explicit: identical to `pc_norm` except that each spatial
component is divided by `m` via `fdiv`, so a zero divisor yields non-finite
entries instead of Lean's `x / 0 = 0` convention. -/
noncomputable def pc_normF (pc : List PCRow) : List ((FV × FV × FV) × List ℝ) :=
  ((pcCentered pc).map (fun v =>
      (fdiv v.1 (normDivisor pc), fdiv v.2.1 (normDivisor pc),
        fdiv v.2.2 (normDivisor pc)))).zip (pcAttrs pc)

/- ### The full converter (`convert_bridge_data`, lines 48-118) -/

/-- Bridges the exact-rational rows of the discrete stages into the real
representation used by `pc_norm`: the first three columns become the spatial
triple, the rest the attribute list.  Every row reaching this point has at
least 5 columns. -/
def rowToR (r : List ℚ) : PCRow :=
  (((r.getD 0 0 : ℚ) : ℝ), ((r.getD 1 0 : ℚ) : ℝ), ((r.getD 2 0 : ℚ) : ℝ)) |>
    fun xyz => (xyz, (r.drop 3).map (fun q => (q : ℝ)))

/-- Embeds `convert_bridge_data(input_file, output_dir, add_color_padding)`
(lines 48-118) from the parsed numeric rows of the input file onward:
load (with squeezing), the `data[0][:5]` diagnostic, the format dispatch,
optional colour padding, resampling to 8192 rows (`idx` models the drawn
`np.random.choice` indices), and normalisation.  The success value is the
final point cloud handed to `np.save`; an error value means the function
raised or returned early, writing no artifact.  Filename derivation
(lines 111-113) transforms no data and is not modelled. -/
noncomputable def convert_bridge_data (rows : List (List ℚ))
    (addColorPadding : Bool) (idx : List ℕ) : Except ConvErr (List PCRow) := do
  let data ← npLoadtxt rows
  let _ ← npSampleCheck data
  let pc ← formatResolve data
  let pc := if addColorPadding then addColorPad pc else pc
  let pc := resample 8192 pc idx
  .ok (pc_norm (pc.map rowToR))

/- ### Leg merge (`pointcloud_complete_pipeline`, lines 122-155) -/

/-- Python whitespace for `str.strip()` / `str.split()` with no argument
(space, tab, newline, carriage return, vertical tab, form feed; further
Unicode whitespace is not exercised by the embedded inputs). -/
def pyIsWS (c : Char) : Bool :=
  c = ' ' || c = '\t' || c = '\n' || c = '\r' || c = '\x0b' || c = '\x0c'

/-- Embeds Python `str.strip()` on the character list of a line. -/
def trimChars (cs : List Char) : List Char :=
  ((cs.dropWhile pyIsWS).reverse.dropWhile pyIsWS).reverse

/-- Embeds Python `str.strip()` on a line. -/
def pyStrip (s : String) : String := ⟨trimChars s.data⟩

/-- Helper for `splitWS`: single pass with the current (reversed) run of
non-whitespace characters as accumulator. -/
def splitWSAux : List Char → List Char → List (List Char)
  | [], acc => if acc = [] then [] else [acc.reverse]
  | c :: cs, acc =>
    if pyIsWS c then
      if acc = [] then splitWSAux cs [] else acc.reverse :: splitWSAux cs []
    else splitWSAux cs (c :: acc)

/-- Embeds Python `str.split()` with no argument: maximal runs of
non-whitespace characters, with no empty fields. -/
def splitWS (cs : List Char) : List (List Char) := splitWSAux cs []

/-- Digit run of a Python integer literal after the optional sign: nonempty,
starts and ends with a digit, and any underscore sits between two digits. -/
def usDigits : List Char → Bool
  | [] => false
  | [c] => c.isDigit
  | c :: '_' :: rest => c.isDigit && usDigits rest
  | c :: rest => c.isDigit && usDigits rest

/-- Numeric value of a digit run, ignoring grouping underscores. -/
def digitsVal (cs : List Char) : ℕ :=
  (cs.filter (fun c => c ≠ '_')).foldl (fun n c => 10 * n + (c.toNat - 48)) 0

/-- Embeds Python `int(s)` on a whitespace-free field: an optional sign
followed by an underscore-grouped digit run parses to an integer, anything
else raises `ValueError` (`none`).  Unicode digits are not exercised by the
embedded inputs. -/
def pyIntChars (cs : List Char) : Option ℤ :=
  match cs with
  | '+' :: rest => if usDigits rest then some (digitsVal rest) else none
  | '-' :: rest => if usDigits rest then some (-(digitsVal rest : ℤ)) else none
  | rest => if usDigits rest then some (digitsVal rest) else none

/-- Mutable state of the merge loop: `all_lines` and the insertion-ordered
`component_files` of `defaultdict(list)` (lines 129-130), the latter as an
association list from component id to its rows in insertion order. -/
structure MergeState where
  allLines : List String
  groups : List (ℤ × List String)
deriving DecidableEq

/-- Exceptions of the merge loop body: `parts[8]` raising `IndexError`
(fewer than 9 fields) and `int(parts[8])` raising `ValueError`. -/
inductive ParseErr where
  | indexError
  | valueError
deriving DecidableEq

/-- Embeds `component_files[component_id].append(line)` on the
`defaultdict(list)`: append to the existing bucket, or create a new bucket
at the end (Python dicts preserve key insertion order). -/
def addToGroup : List (ℤ × List String) → ℤ → String → List (ℤ × List String)
  | [], k, line => [(k, [line])]
  | (k', ls) :: rest, k, line =>
    if k' = k then (k', ls ++ [line]) :: rest
    else (k', ls) :: addToGroup rest k line

/-- Embeds one iteration of the inner loop (lines 134-147): strip the line,
skip it if blank, append it to `all_lines`, split it on whitespace, parse
field 9 (`int(parts[8])`) and append the line to that component's bucket;
a missing 9th field or a failed parse raises out of the loop. -/
def processLine (st : MergeState) (line : String) : Except ParseErr MergeState :=
  let t := pyStrip line
  if t = "" then .ok st
  else
    let st' : MergeState := ⟨st.allLines ++ [t], st.groups⟩
    match (splitWS t.data).get? 8 with
    | none => .error .indexError
    | some f =>
      match pyIntChars f with
      | none => .error .valueError
      | some cid => .ok ⟨st'.allLines, addToGroup st'.groups cid t⟩

/-- Embeds the loop over the lines of one leg file (lines 132-147). -/
def processFile (st : MergeState) (file : String × List String) :
    Except ParseErr MergeState :=
  file.2.foldlM processLine st

/-- True when the filename has the `.xyz` suffix (`fname.endswith(".xyz")`,
line 126). -/
def endsWithXyz (s : String) : Bool := ".xyz".data.isSuffixOf s.data

/-- The leg files the loop iterates over: the directory listing filtered to
`.xyz` names, in listing order (`os.listdir` returns an arbitrary,
unsorted order; the code applies no sort). -/
def legFiles (listing : List (String × List String)) :
    List (String × List String) :=
  listing.filter (fun f => endsWithXyz f.1)

/-- Embeds the merge of lines 122-155 as a function of the directory listing
(filename and lines of each file, in `os.listdir` order): run the nested
loops, then produce the bytes of the merged artifact
(`'\n'.join(all_lines) + '\n'`, lines 153-154) together with the component
grouping handed to the segmentation step.  An exception in the loop body
propagates before the merged file is opened, so the error case carries no
artifact and no grouping. -/
def mergeLegs (listing : List (String × List String)) :
    Except ParseErr (String × List (ℤ × List String)) := do
  let st ← (legFiles listing).foldlM processFile ⟨[], []⟩
  .ok (String.intercalate "\n" st.allLines ++ "\n", st.groups)

/-- Bytes of the merged artifact a run would write, if any. -/
def mergedText (listing : List (String × List String)) : Option String :=
  match mergeLegs listing with
  | .ok (t, _) => some t
  | .error _ => none

/-- True of a line on which the loop body raises: nonblank after stripping,
and with fewer than 9 whitespace-separated fields or a 9th field that
`int()` rejects. -/
def badLineB (line : String) : Bool :=
  let t := pyStrip line
  t ≠ "" &&
    (match (splitWS t.data).get? 8 with
     | none => true
     | some f => (pyIntChars f).isNone)

/-- The stripped nonblank lines of a file, in order (the lines the loop
appends to `all_lines`). -/
def keptLines (lines : List String) : List String :=
  (lines.map pyStrip).filter (fun t => t ≠ "")

/-- True when an `Except` value is an error. -/
def isErr {ε α : Type} : Except ε α → Bool
  | .error _ => true
  | .ok _ => false

/-- Modelled from the spec: the "lexical by filename" processing order the
spec prescribes for leg files ("discovered and processed in a stable,
repeatable order (lexical by filename)"), as an insertion sort of the
listing by code-point order on filenames (Python `sorted`).  The source
itself applies no such sort; this definition exists to state and refute
that claim. -/
def lexLe : List Char → List Char → Bool
  | [], _ => true
  | _ :: _, [] => false
  | a :: as, b :: bs =>
    if a.val < b.val then true
    else if b.val < a.val then false
    else lexLe as bs

/-- Modelled from the spec: insert one file into a filename-sorted listing. -/
def insertByName (f : String × List String) :
    List (String × List String) → List (String × List String)
  | [] => [f]
  | g :: gs => if lexLe f.1.data g.1.data then f :: g :: gs
               else g :: insertByName f gs

/-- Modelled from the spec: the listing sorted lexically by filename. -/
def sortByFilename (l : List (String × List String)) :
    List (String × List String) :=
  l.foldr insertByName []

/- ### Concrete inputs used by counterexamples and witnesses -/

deriving instance DecidableEq for Except

/-- Three collinear spatial points (with one attribute column) used to
separate the code's random downsampling from farthest-point sampling. -/
def cexPts : List (List ℚ) := [[0, 0, 0, 5], [1, 0, 0, 6], [10, 0, 0, 7]]

/-- A well-formed one-line leg file named `a.xyz`. -/
def fileA : String × List String := ("a.xyz", ["1 1 1 1 1 1 1 1 1"])

/-- A well-formed one-line leg file named `b.xyz`. -/
def fileB : String × List String := ("b.xyz", ["2 2 2 2 2 2 2 2 2"])

/-- Two opposite unit points with one attribute column each: a Point Set
whose normalisation divisor is already 1. -/
def w7pc : List PCRow := [((1, 0, 0), [5]), ((-1, 0, 0), [6])]

/- ### Supporting lemmas -/

theorem except_bind_ok {ε α β : Type} (a : α) (f : α → Except ε β) :
    (Except.ok a >>= f : Except ε β) = f a := rfl

theorem except_bind_error {ε α β : Type} (e : ε) (f : α → Except ε β) :
    (Except.error e >>= f : Except ε β) = .error e := rfl

theorem take_three_of_le (r : List ℚ) (h : 3 ≤ r.length) :
    r.take 3 = [r.getD 0 0, r.getD 1 0, r.getD 2 0] := by
  match r with
  | [] => simp at h
  | [a] => simp at h
  | [a, b] => simp at h
  | a :: b :: c :: rest => simp [List.getD]

/- ### Claim theorems -/

/-- C4: for every input Point Set of size `N >= 1` and target `K >= 1`, the
resampling step of `convert_bridge_data` outputs exactly `K` rows, whether it
downsamples (`N > K`), upsamples with replacement (`N < K`), or passes the
set through (`N == K`).  `idx` models the `np.random.choice` draw, which
always has length `K` with entries in `[0, N)`. -/
theorem resample_cardinality (npoint : ℕ) (pc : List (List ℚ)) (idx : List ℕ)
    (hN : 1 ≤ pc.length) (hK : 1 ≤ npoint) (hlen : idx.length = npoint)
    (hvalid : ∀ i ∈ idx, i < pc.length) :
    (resample npoint pc idx).length = npoint := by
  unfold resample
  split
  · simp [hlen]
  · split
    · simp [hlen]
    · omega

/-- Witness for `resample_cardinality`: downsampling 3 rows to 2. -/
theorem resample_cardinality_witness :
    (resample 2 cexPts [2, 0]).length = 2 :=
  resample_cardinality 2 cexPts [2, 0] (by decide) (by decide) (by decide)
    (by decide)

/-- C5: when the input size equals the target, the resampling step returns
the point set unchanged (same rows in the same order, hence equal as a
multiset and not re-randomized), for any modelled random draw. -/
theorem resample_identity (npoint : ℕ) (pc : List (List ℚ)) (idx : List ℕ)
    (h : pc.length = npoint) : resample npoint pc idx = pc := by
  simp [resample, h]

/-- Witness for `resample_identity`: a 3-row set with target 3. -/
theorem resample_identity_witness : resample 3 cexPts [0, 0, 0] = cexPts :=
  resample_identity 3 cexPts [0, 0, 0] (by decide)

/-- C1 counterexample: the downsampling branch of `convert_bridge_data` does
not perform farthest-point sampling.  On `cexPts` (3 points) reduced to 2,
every possible initial point of `farthest_point_sample` (there are exactly
3, as `np.random.randint(0, 3)` draws from `{0, 1, 2}`) selects the far
point `[10, 0, 0, 7]`; yet `[0, 1]` is a valid `np.random.choice` draw
(2 distinct indices below 3) under which the code's resampling step omits
that point, an output farthest-point sampling can never produce. -/
theorem downsample_not_fps_cex :
    cexPts.length = 3 ∧ [0, 1].Nodup ∧
    [(10 : ℚ), 0, 0, 7] ∉ resample 2 cexPts [0, 1] ∧
    [(10 : ℚ), 0, 0, 7] ∈ farthest_point_sample cexPts 2 0 ∧
    [(10 : ℚ), 0, 0, 7] ∈ farthest_point_sample cexPts 2 1 ∧
    [(10 : ℚ), 0, 0, 7] ∈ farthest_point_sample cexPts 2 2 := by
  with_unfolding_all decide

/-- C1 (amended): when `N > K` the resampling step of `convert_bridge_data`
selects the rows at the `K` distinct uniformly random indices drawn by
`np.random.choice(N, K, replace=False)` — so its output is exactly the drawn
rows, every output row occurs in the input, and the output has `K` rows;
`farthest_point_sample` implements the described algorithm but is never
invoked by the converter. -/
theorem downsample_selects_drawn_indices (npoint : ℕ) (pc : List (List ℚ))
    (idx : List ℕ) (hlt : npoint < pc.length) (hlen : idx.length = npoint)
    (hvalid : ∀ i ∈ idx, i < pc.length) (hnd : idx.Nodup) :
    resample npoint pc idx = idx.map (fun i => pc.getD i []) ∧
    (∀ r ∈ resample npoint pc idx, r ∈ pc) ∧
    (resample npoint pc idx).length = npoint := by
  have h1 : resample npoint pc idx = idx.map (fun i => pc.getD i []) := by
    simp [resample, hlt]
  refine ⟨h1, ?_, ?_⟩
  · rw [h1]
    intro r hr
    obtain ⟨i, hi, rfl⟩ := List.mem_map.mp hr
    have hlt' : i < pc.length := hvalid i hi
    rw [List.getD_eq_getElem?_getD, List.getElem?_eq_getElem hlt']
    exact List.getElem_mem hlt'
  · rw [h1]
    simp [hlen]

/-- Witness for `downsample_selects_drawn_indices`: 3 rows reduced to 2 with
the draw `[2, 0]`. -/
theorem downsample_selects_drawn_indices_witness :
    resample 2 cexPts [2, 0] = [2, 0].map (fun i => cexPts.getD i []) ∧
    (∀ r ∈ resample 2 cexPts [2, 0], r ∈ cexPts) ∧
    (resample 2 cexPts [2, 0]).length = 2 :=
  downsample_selects_drawn_indices 2 cexPts [2, 0] (by decide) (by decide)
    (by decide) (by decide)

/-- C10: an input file with exactly one point row is squeezed by
`np.loadtxt` to an array of fewer than 2 dimensions, so the converter raises
before the format dispatch (first at the `data[0][:5]` diagnostic on
line 67; `data.shape[1]` on line 70 would raise likewise) instead of
classifying the row by its field count or reporting the unsupported-format
warning, and no artifact is produced — for every row content, padding flag
and random draw. -/
theorem convert_single_row_raises (row : List ℚ) (pad : Bool) (idx : List ℕ) :
    convert_bridge_data [row] pad idx = .error .sampleAccessError := by
  have huni : uniformWidth [row] = true := by simp [uniformWidth]
  have harr : ∃ arr, npLoadtxt [row] = .ok arr ∧
      npSampleCheck arr = .error .sampleAccessError := by
    match row with
    | [] => exact ⟨.oneD [], by simp [npLoadtxt, huni], rfl⟩
    | [v] => exact ⟨.zeroD v, by simp [npLoadtxt, huni], rfl⟩
    | a :: b :: t => exact ⟨.oneD (a :: b :: t), by simp [npLoadtxt, huni], rfl⟩
  obtain ⟨arr, h1, h2⟩ := harr
  simp [convert_bridge_data, h1, h2, except_bind_ok, except_bind_error]

/-- C6: a 2-D table (at least 2 rows and 2 columns, the shapes that survive
`np.loadtxt`'s squeezing and reach the format dispatch) whose column count
is neither 6 nor 11 makes `convert_bridge_data` report the
unsupported-format error and return before any resampling, normalisation or
write: the converter produces no artifact. -/
theorem convert_rejects_unknown_schema (rows : List (List ℚ)) (pad : Bool)
    (idx : List ℕ) (w : ℕ) (hw : ∀ r ∈ rows, r.length = w)
    (hrows : 2 ≤ rows.length) (hcols : 2 ≤ w) (h6 : w ≠ 6) (h11 : w ≠ 11) :
    convert_bridge_data rows pad idx = .error (.unsupportedFormat w) := by
  match rows, hrows with
  | a :: b :: t, _ =>
    have ha : a.length = w := hw a (by simp)
    have huni : uniformWidth (a :: b :: t) = true := by
      simp only [uniformWidth, List.all_eq_true, decide_eq_true_eq, List.headD_cons]
      intro r hr
      rw [hw r hr, ha]
    have hL : npLoadtxt (a :: b :: t) = .ok (.twoD (a :: b :: t)) := by
      simp only [npLoadtxt, huni, if_true, List.headD_cons]
      have : ¬a.length = 1 := by omega
      simp [this]
    have hF : formatResolve (.twoD (a :: b :: t)) =
        .error (.unsupportedFormat w) := by
      simp only [formatResolve, List.headD_cons, ha, h6, h11, if_false]
    simp [convert_bridge_data, hL, hF, npSampleCheck, except_bind_ok,
      except_bind_error]

/-- Witness for `convert_rejects_unknown_schema`: a 2x3 table. -/
theorem convert_rejects_unknown_schema_witness :
    convert_bridge_data [[1, 2, 3], [4, 5, 6]] false [] =
      .error (.unsupportedFormat 3) :=
  convert_rejects_unknown_schema [[1, 2, 3], [4, 5, 6]] false [] 3 (by decide)
    (by decide) (by decide) (by decide) (by decide)

/-- C8: with colour padding enabled, the extraction-plus-padding output for
every table of either recognised schema (11 or 6 columns) has exactly 6
channels per row: the first 3 are the source row's spatial `x, y, z` columns
and the last 3 are exactly zero, all non-spatial source channels having been
discarded. -/
theorem color_padding_uniform_output (rows : List (List ℚ)) (w : ℕ)
    (hne : rows ≠ []) (hw : ∀ r ∈ rows, r.length = w)
    (hsch : w = 11 ∨ w = 6) :
    ∃ pc, formatResolve (.twoD rows) = .ok pc ∧
      addColorPad pc = rows.map (fun r => r.take 3 ++ [0, 0, 0]) ∧
      ∀ r' ∈ addColorPad pc, r'.length = 6 := by
  obtain ⟨a, t, rfl⟩ := List.exists_cons_of_ne_nil hne
  have ha : a.length = w := hw a (by simp)
  have hlen6 : ∀ r' ∈ (a :: t).map (fun r => r.take 3 ++ ([0, 0, 0] : List ℚ)),
      r'.length = 6 := by
    intro r' hr'
    obtain ⟨r, hr, rfl⟩ := List.mem_map.mp hr'
    have : r.length = w := hw r hr
    simp
    omega
  rcases hsch with h11 | h6
  · refine ⟨(a :: t).map (fun r =>
      [r.getD 0 0, r.getD 1 0, r.getD 2 0, r.getD 3 0, r.getD 7 0]), ?_, ?_, ?_⟩
    · simp [formatResolve, ha, h11]
    · unfold addColorPad
      rw [List.map_map]
      refine List.map_congr_left ?_
      intro r hr
      have hlr : 3 ≤ r.length := by rw [hw r hr]; omega
      simp [take_three_of_le r hlr]
    · have heq : addColorPad ((a :: t).map (fun r =>
          [r.getD 0 0, r.getD 1 0, r.getD 2 0, r.getD 3 0, r.getD 7 0])) =
          (a :: t).map (fun r => r.take 3 ++ [0, 0, 0]) := by
        unfold addColorPad
        rw [List.map_map]
        refine List.map_congr_left ?_
        intro r hr
        have hlr : 3 ≤ r.length := by rw [hw r hr]; omega
        simp [take_three_of_le r hlr]
      rw [heq]
      exact hlen6
  · refine ⟨(a :: t).map (fun r =>
      r.take 3 ++ (r.drop 3).map (fun q => q / 255)), ?_, ?_, ?_⟩
    · simp [formatResolve, ha, h6]
    · unfold addColorPad
      rw [List.map_map]
      refine List.map_congr_left ?_
      intro r hr
      have hlr : (r.take 3).length = 3 := by
        simp
        rw [hw r hr]
        omega
      simp [List.take_left' hlr]
    · have heq : addColorPad ((a :: t).map (fun r =>
          r.take 3 ++ (r.drop 3).map (fun q => q / 255))) =
          (a :: t).map (fun r => r.take 3 ++ [0, 0, 0]) := by
        unfold addColorPad
        rw [List.map_map]
        refine List.map_congr_left ?_
        intro r hr
        have hlr : (r.take 3).length = 3 := by
          simp
          rw [hw r hr]
          omega
        simp [List.take_left' hlr]
      rw [heq]
      exact hlen6

/-- Witness for `color_padding_uniform_output`: a 2x6 colour-schema table. -/
theorem color_padding_uniform_output_witness :
    ∃ pc, formatResolve (.twoD [[0, 1, 2, 3, 4, 5], [6, 7, 8, 9, 10, 11]]) =
        .ok pc ∧
      addColorPad pc = [[0, 1, 2, 3, 4, 5], [6, 7, 8, 9, 10, 11]].map
        (fun r => r.take 3 ++ [0, 0, 0]) ∧
      ∀ r' ∈ addColorPad pc, r'.length = 6 :=
  color_padding_uniform_output [[0, 1, 2, 3, 4, 5], [6, 7, 8, 9, 10, 11]] 6
    (by decide) (by decide) (Or.inr rfl)

theorem processLine_of_bad (st : MergeState) (l : String)
    (h : badLineB l = true) : ∃ e, processLine st l = .error e := by
  simp only [badLineB, Bool.and_eq_true, decide_eq_true_eq] at h
  obtain ⟨ht, hm⟩ := h
  simp only [processLine]
  rw [if_neg ht]
  cases h8 : (splitWS (pyStrip l).data).get? 8 with
  | none => exact ⟨.indexError, by simp⟩
  | some f =>
    rw [h8] at hm
    simp only at hm
    cases hp : pyIntChars f with
    | none => exact ⟨.valueError, by simp [hp]⟩
    | some v =>
      rw [hp] at hm
      simp at hm

theorem foldlM_lines_error (lines : List String) :
    ∀ st : MergeState, (∃ l ∈ lines, badLineB l = true) →
      ∃ e, lines.foldlM processLine st = .error e := by
  induction lines with
  | nil => intro st h; simp at h
  | cons x xs ih =>
    intro st h
    rw [List.foldlM_cons]
    cases hx : processLine st x with
    | error e => exact ⟨e, rfl⟩
    | ok st' =>
      obtain ⟨l, hl, hbad⟩ := h
      rcases List.mem_cons.mp hl with rfl | hmem
      · obtain ⟨e, he⟩ := processLine_of_bad st l hbad
        rw [he] at hx
        cases hx
      · obtain ⟨e, he⟩ := ih st' ⟨l, hmem, hbad⟩
        exact ⟨e, by simp only [except_bind_ok]; exact he⟩

theorem foldlM_files_error (files : List (String × List String)) :
    ∀ st : MergeState, (∃ f ∈ files, ∃ l ∈ f.2, badLineB l = true) →
      ∃ e, files.foldlM processFile st = .error e := by
  induction files with
  | nil => intro st h; simp at h
  | cons f fs ih =>
    intro st h
    rw [List.foldlM_cons]
    cases hf : processFile st f with
    | error e => exact ⟨e, rfl⟩
    | ok st' =>
      obtain ⟨g, hg, l, hl, hbad⟩ := h
      rcases List.mem_cons.mp hg with rfl | hmem
      · obtain ⟨e, he⟩ := foldlM_lines_error g.2 st ⟨l, hl, hbad⟩
        rw [show processFile st g = g.2.foldlM processLine st from rfl, he] at hf
        cases hf
      · obtain ⟨e, he⟩ := ih st' ⟨g, hmem, l, hl, hbad⟩
        exact ⟨e, by simp only [except_bind_ok]; exact he⟩

/-- C9: if any row of any `.xyz` leg file in the listing is malformed
(nonblank but with fewer than 9 whitespace-separated fields, or with a 9th
field `int()` rejects), the merge for that scan session fails with a raised
exception during the reading loop — before the merged file is opened on
line 153 and before segmentation is invoked on line 168 — so no merged
artifact is committed and no component grouping is handed onward (the
error result of `mergeLegs` carries neither). -/
theorem merge_malformed_row_fatal (listing : List (String × List String))
    (h : ∃ f ∈ legFiles listing, ∃ l ∈ f.2, badLineB l = true) :
    isErr (mergeLegs listing) = true := by
  obtain ⟨e, he⟩ := foldlM_files_error (legFiles listing) ⟨[], []⟩ h
  simp only [mergeLegs, he, except_bind_error, isErr]

/-- Witness for `merge_malformed_row_fatal`: a leg file whose only row has
3 fields. -/
theorem merge_malformed_row_fatal_witness :
    isErr (mergeLegs [("leg.xyz", ["1 2 3"])]) = true :=
  merge_malformed_row_fatal [("leg.xyz", ["1 2 3"])]
    ⟨("leg.xyz", ["1 2 3"]), by decide, "1 2 3", by decide, by decide⟩

theorem foldlM_lines_ok (lines : List String) :
    ∀ st : MergeState, (∀ l ∈ lines, badLineB l = false) →
      ∃ gs, lines.foldlM processLine st =
        .ok ⟨st.allLines ++ keptLines lines, gs⟩ := by
  induction lines with
  | nil => intro st h; exact ⟨st.groups, by simp [keptLines]; rfl⟩
  | cons x xs ih =>
    intro st h
    have hx : badLineB x = false := h x (by simp)
    rw [List.foldlM_cons]
    by_cases ht : pyStrip x = ""
    · have hl : processLine st x = .ok st := by simp [processLine, ht]
      rw [hl, except_bind_ok]
      have hk : keptLines (x :: xs) = keptLines xs := by simp [keptLines, ht]
      rw [hk]
      exact ih st (fun l hl' => h l (by simp [hl']))
    · simp only [badLineB, Bool.and_eq_true, decide_eq_true_eq] at hx
      rw [Bool.and_eq_false_iff] at hx
      rcases hx with hx | hx
      · rw [decide_eq_false_iff_not] at hx
        exact absurd ht (by simpa using hx)
      · cases h8 : (splitWS (pyStrip x).data).get? 8 with
        | none => rw [h8] at hx; simp at hx
        | some f =>
          rw [h8] at hx
          simp only at hx
          cases hp : pyIntChars f with
          | none => rw [hp] at hx; simp at hx
          | some cid =>
            have hl : processLine st x =
                .ok ⟨st.allLines ++ [pyStrip x],
                  addToGroup st.groups cid (pyStrip x)⟩ := by
              simp only [processLine]
              rw [if_neg ht, h8]
              simp [hp]
            rw [hl, except_bind_ok]
            obtain ⟨gs, hgs⟩ := ih ⟨st.allLines ++ [pyStrip x],
              addToGroup st.groups cid (pyStrip x)⟩
              (fun l hl' => h l (by simp [hl']))
            refine ⟨gs, ?_⟩
            rw [hgs]
            have hk : keptLines (x :: xs) = pyStrip x :: keptLines xs := by
              simp [keptLines, ht]
            rw [hk]
            simp

theorem foldlM_files_ok (files : List (String × List String)) :
    ∀ st : MergeState, (∀ f ∈ files, ∀ l ∈ f.2, badLineB l = false) →
      ∃ gs, files.foldlM processFile st =
        .ok ⟨st.allLines ++ (files.map (fun f => keptLines f.2)).flatten, gs⟩ := by
  induction files with
  | nil => intro st h; exact ⟨st.groups, by simp; rfl⟩
  | cons f fs ih =>
    intro st h
    rw [List.foldlM_cons]
    obtain ⟨gs1, h1⟩ := foldlM_lines_ok f.2 st (h f (by simp))
    rw [show processFile st f = f.2.foldlM processLine st from rfl, h1,
      except_bind_ok]
    obtain ⟨gs, h2⟩ := ih ⟨st.allLines ++ keptLines f.2, gs1⟩
      (fun g hg l hl => h g (by simp [hg]) l hl)
    refine ⟨gs, ?_⟩
    rw [h2]
    simp

/-- C3 counterexample: the merge does not process leg files in lexical
filename order — it follows the `os.listdir` order it is given, which
Python documents as arbitrary.  The listing `[fileB, fileA]` (a possible
`os.listdir` return for the set `{a.xyz, b.xyz}`) produces merged bytes
different from those of the lexically sorted processing order, so two runs
over the same set of leg files need not produce byte-identical output. -/
theorem merge_not_lexical_cex :
    sortByFilename [fileB, fileA] = [fileA, fileB] ∧
    mergedText [fileB, fileA] ≠ mergedText (sortByFilename [fileB, fileA]) := by
  with_unfolding_all decide

/-- C3 (amended): the merge is deterministic as a function of the directory
listing it is handed (not of the set of files): when every row of every
`.xyz` file parses, the merged artifact's bytes are exactly the stripped
nonblank lines of the `.xyz` files, in listing order then line order,
joined by newlines with a trailing newline. -/
theorem merge_text_characterization (listing : List (String × List String))
    (h : ∀ f ∈ legFiles listing, ∀ l ∈ f.2, badLineB l = false) :
    mergedText listing =
      some (String.intercalate "\n"
        ((legFiles listing).map (fun f => keptLines f.2)).flatten ++ "\n") := by
  obtain ⟨gs, hgs⟩ := foldlM_files_ok (legFiles listing) ⟨[], []⟩ h
  simp only [List.nil_append] at hgs
  simp only [mergedText, mergeLegs, hgs, except_bind_ok]

/-- Witness for `merge_text_characterization`: two well-formed leg files,
one containing a blank line, and a non-leg file that is filtered out. -/
theorem merge_text_characterization_witness :
    mergedText [fileA, ("notes.txt", ["x"]), ("b.xyz", ["", "2 2 2 2 2 2 2 2 2"])] =
      some (String.intercalate "\n"
        ((legFiles [fileA, ("notes.txt", ["x"]),
          ("b.xyz", ["", "2 2 2 2 2 2 2 2 2"])]).map
            (fun f => keptLines f.2)).flatten ++ "\n") :=
  merge_text_characterization
    [fileA, ("notes.txt", ["x"]), ("b.xyz", ["", "2 2 2 2 2 2 2 2 2"])]
    (by decide)

theorem foldl_max_le_init (l : List ℝ) : ∀ a : ℝ, a ≤ l.foldl max a := by
  induction l with
  | nil => intro a; simp
  | cons x xs ih =>
    intro a
    rw [List.foldl_cons]
    exact le_trans (le_max_left a x) (ih (max a x))

theorem le_foldl_max_of_mem (l : List ℝ) :
    ∀ (a x : ℝ), x ∈ l → x ≤ l.foldl max a := by
  induction l with
  | nil => intro a x hx; simp at hx
  | cons y ys ih =>
    intro a x hx
    rw [List.foldl_cons]
    rcases List.mem_cons.mp hx with rfl | hmem
    · exact le_trans (le_max_right a x) (foldl_max_le_init ys (max a x))
    · exact ih (max a y) x hmem

theorem foldl_max_mem (l : List ℝ) :
    ∀ a : ℝ, l.foldl max a = a ∨ l.foldl max a ∈ l := by
  induction l with
  | nil => intro a; left; rfl
  | cons y ys ih =>
    intro a
    rw [List.foldl_cons]
    rcases ih (max a y) with h | h
    · rcases max_choice a y with hm | hm
      · left; rw [h, hm]
      · right; rw [h, hm]; simp
    · right; exact List.mem_cons_of_mem y h

theorem npMaxR_mem (l : List ℝ) (h : l ≠ []) : npMaxR l ∈ l := by
  match l with
  | x :: xs =>
    show xs.foldl max x ∈ x :: xs
    rcases foldl_max_mem xs x with h1 | h1
    · rw [h1]; simp
    · exact List.mem_cons_of_mem x h1

theorem le_npMaxR (l : List ℝ) (x : ℝ) (hx : x ∈ l) : x ≤ npMaxR l := by
  match l with
  | y :: ys =>
    show x ≤ ys.foldl max y
    rcases List.mem_cons.mp hx with rfl | hmem
    · exact foldl_max_le_init ys x
    · exact le_foldl_max_of_mem ys y x hmem

theorem foldl_max_div (m : ℝ) (hm : 0 ≤ m) (l : List ℝ) :
    ∀ a : ℝ, (l.map (fun x => x / m)).foldl max (a / m) = l.foldl max a / m := by
  induction l with
  | nil => intro a; rfl
  | cons y ys ih =>
    intro a
    simp only [List.map_cons, List.foldl_cons]
    rw [max_div_div_right hm a y, ih (max a y)]

theorem npMaxR_map_div (l : List ℝ) (m : ℝ) (hm : 0 ≤ m) :
    npMaxR (l.map (fun x => x / m)) = npMaxR l / m := by
  match l with
  | [] => show (0 : ℝ) = 0 / m; rw [zero_div]
  | x :: xs =>
    show (xs.map (fun x => x / m)).foldl max (x / m) = xs.foldl max x / m
    exact foldl_max_div m hm xs x

theorem sqNorm_nonneg (v : V3) : 0 ≤ sqNorm v := by
  unfold sqNorm
  positivity

theorem v3norm_nonneg (v : V3) : 0 ≤ v3norm v := Real.sqrt_nonneg _

theorem v3norm_div_pos (v : V3) (m : ℝ) (hm : 0 < m) :
    v3norm (v3div v m) = v3norm v / m := by
  unfold v3norm v3div sqNorm
  have h1 : (v.1 / m) ^ 2 + (v.2.1 / m) ^ 2 + (v.2.2 / m) ^ 2 =
      (v.1 ^ 2 + v.2.1 ^ 2 + v.2.2 ^ 2) / m ^ 2 := by
    field_simp
  rw [h1, Real.sqrt_div (by positivity) (m ^ 2), Real.sqrt_sq hm.le]

theorem normDivisor_nonneg (pc : List PCRow) : 0 ≤ normDivisor pc := by
  unfold normDivisor
  cases hc : (pcCentered pc).map v3norm with
  | nil => simp [npMaxR]
  | cons x xs =>
    have hmem : npMaxR (x :: xs) ∈ x :: xs := npMaxR_mem _ (by simp)
    have hpos : ∀ y ∈ x :: xs, 0 ≤ y := by
      rw [← hc]
      intro y hy
      obtain ⟨v, _, rfl⟩ := List.mem_map.mp hy
      exact v3norm_nonneg v
    exact hpos _ hmem

theorem sum_fst (l : List V3) : l.sum.1 = (l.map (fun v => v.1)).sum := by
  induction l with
  | nil => simp
  | cons x xs ih => simp [ih]

theorem sum_snd_fst (l : List V3) : l.sum.2.1 = (l.map (fun v => v.2.1)).sum := by
  induction l with
  | nil => simp
  | cons x xs ih => simp [ih]

theorem sum_snd_snd (l : List V3) : l.sum.2.2 = (l.map (fun v => v.2.2)).sum := by
  induction l with
  | nil => simp
  | cons x xs ih => simp [ih]

theorem sum_map_sub_const {α : Type} (l : List α) (f : α → ℝ) (c : ℝ) :
    (l.map (fun v => f v - c)).sum = (l.map f).sum - l.length * c := by
  induction l with
  | nil => simp
  | cons x xs ih =>
    simp [ih]
    ring

theorem centered_sum_comp (l : List V3) (h : (l.length : ℝ) ≠ 0) :
    (l.map (fun v => v - v3div l.sum (l.length : ℝ))).sum =
      ((0 : ℝ), (0 : ℝ), (0 : ℝ)) := by
  have e1 : ∀ g : V3 → ℝ, (∀ v w : V3, g (v - w) = g v - g w) →
      ((l.map (fun v => v - v3div l.sum (l.length : ℝ))).map g).sum =
        (l.map g).sum - l.length * g (v3div l.sum (l.length : ℝ)) := by
    intro g hg
    rw [List.map_map]
    have : (g ∘ fun v => v - v3div l.sum (l.length : ℝ)) =
        fun v => g v - g (v3div l.sum (l.length : ℝ)) := by
      funext v
      exact hg v _
    rw [this, sum_map_sub_const]
  refine Prod.ext ?_ (Prod.ext ?_ ?_)
  · rw [sum_fst, e1 (fun v => v.1) (fun v w => rfl)]
    show (l.map fun v => v.1).sum - l.length * (l.sum.1 / (l.length : ℝ)) = 0
    rw [← sum_fst]
    field_simp
  · rw [sum_snd_fst, e1 (fun v => v.2.1) (fun v w => rfl)]
    show (l.map fun v => v.2.1).sum - l.length * (l.sum.2.1 / (l.length : ℝ)) = 0
    rw [← sum_snd_fst]
    field_simp
  · rw [sum_snd_snd, e1 (fun v => v.2.2) (fun v w => rfl)]
    show (l.map fun v => v.2.2).sum - l.length * (l.sum.2.2 / (l.length : ℝ)) = 0
    rw [← sum_snd_snd]
    field_simp

theorem pcCentered_sum_zero (pc : List PCRow) (h : pc ≠ []) :
    (pcCentered pc).sum = ((0 : ℝ), (0 : ℝ), (0 : ℝ)) := by
  have hlen : pc.length ≠ 0 := fun hh => h (List.length_eq_zero.mp hh)
  have hn : ((pcXyz pc).length : ℝ) ≠ 0 := by
    rw [show (pcXyz pc).length = pc.length from by simp [pcXyz]]
    exact Nat.cast_ne_zero.mpr hlen
  unfold pcCentered pcCentroid npMean3
  exact centered_sum_comp (pcXyz pc) hn

theorem sum_map_v3div (l : List V3) (m : ℝ) :
    (l.map (fun v => v3div v m)).sum = v3div l.sum m := by
  induction l with
  | nil => simp [v3div]
  | cons x xs ih =>
    simp only [List.map_cons, List.sum_cons, ih]
    refine Prod.ext ?_ (Prod.ext ?_ ?_) <;> simp [v3div, add_div]

/-- C2 (code bug): on a degenerate Point Set whose centred spatial
coordinates are all zero — here the single point `[1, 2, 3, 7]` — `pc_norm`
computes `m = 0` and performs the division anyway.  Under the IEEE
semantics of the division (`pc_normF`) the function returns normally with
every spatial entry `nan` (numpy emits only a RuntimeWarning): output is
silently produced and it is non-finite, where the claim requires a fatal
numeric error and no non-finite values. -/
theorem pc_norm_zero_divisor_emits_nan :
    pc_normF [((1, 2, 3), [7])] = [((.nan, .nan, .nan), [7])] := by
  have hc : pcCentered [(((1 : ℝ), (2 : ℝ), (3 : ℝ)), [(7 : ℝ)])] =
      [((0 : ℝ), (0 : ℝ), (0 : ℝ))] := by
    simp [pcCentered, pcCentroid, npMean3, pcXyz, v3div, Prod.ext_iff]
  have hm : normDivisor [(((1 : ℝ), (2 : ℝ), (3 : ℝ)), [(7 : ℝ)])] = 0 := by
    rw [normDivisor, hc]
    simp [v3norm, sqNorm, npMaxR]
  rw [pc_normF, hc, hm]
  simp [fdiv, pcAttrs]

/-- C7: for every nonempty Point Set whose normalisation divisor `m` is
nonzero, the output of `pc_norm` satisfies: every spatial triple lies within
or on the unit sphere centred at the origin, the maximum spatial norm is
exactly 1, the mean of the spatial triples is exactly the zero vector, and
the attribute channels are returned unchanged in their original order. -/
theorem pc_norm_postconditions (pc : List PCRow) (hne : pc ≠ [])
    (hm : normDivisor pc ≠ 0) :
    (∀ row ∈ pc_norm pc, v3norm row.1 ≤ 1) ∧
    npMaxR ((pc_norm pc).map (fun row => v3norm row.1)) = 1 ∧
    npMean3 ((pc_norm pc).map Prod.fst) = ((0 : ℝ), (0 : ℝ), (0 : ℝ)) ∧
    (pc_norm pc).map Prod.snd = pcAttrs pc := by
  have hm0 : 0 < normDivisor pc :=
    lt_of_le_of_ne (normDivisor_nonneg pc) (Ne.symm hm)
  have hlen : ((pcCentered pc).map (fun v => v3div v (normDivisor pc))).length =
      (pcAttrs pc).length := by
    simp [pcCentered, pcXyz, pcAttrs]
  have hfst : (pc_norm pc).map Prod.fst =
      (pcCentered pc).map (fun v => v3div v (normDivisor pc)) := by
    unfold pc_norm
    exact List.map_fst_zip _ _ (le_of_eq hlen)
  have hsnd : (pc_norm pc).map Prod.snd = pcAttrs pc := by
    unfold pc_norm
    exact List.map_snd_zip _ _ (ge_of_eq hlen)
  have hnorms : (pc_norm pc).map (fun row => v3norm row.1) =
      ((pcCentered pc).map v3norm).map (fun x => x / normDivisor pc) := by
    have h1 : (pc_norm pc).map (fun row => v3norm row.1) =
        ((pc_norm pc).map Prod.fst).map v3norm := by
      rw [List.map_map]
      rfl
    rw [h1, hfst, List.map_map, List.map_map]
    refine List.map_congr_left ?_
    intro v _
    show v3norm (v3div v (normDivisor pc)) = v3norm v / normDivisor pc
    exact v3norm_div_pos v _ hm0
  have hmax : npMaxR ((pcCentered pc).map v3norm) = normDivisor pc := rfl
  refine ⟨?_, ?_, ?_, hsnd⟩
  · intro row hrow
    have h1 : row.1 ∈ (pc_norm pc).map Prod.fst :=
      List.mem_map_of_mem Prod.fst hrow
    rw [hfst] at h1
    obtain ⟨v, hv, heq⟩ := List.mem_map.mp h1
    rw [← heq, v3norm_div_pos v _ hm0]
    rw [div_le_one hm0]
    exact le_npMaxR _ _ (List.mem_map_of_mem v3norm hv)
  · rw [hnorms, npMaxR_map_div _ _ hm0.le, hmax, div_self hm]
  · rw [hfst]
    unfold npMean3
    rw [sum_map_v3div, pcCentered_sum_zero pc hne]
    refine Prod.ext ?_ (Prod.ext ?_ ?_) <;> simp [v3div]

theorem w7pc_normDivisor : normDivisor w7pc = 1 := by
  have hc : pcCentered w7pc = [((1 : ℝ), (0 : ℝ), (0 : ℝ)),
      ((-1 : ℝ), (0 : ℝ), (0 : ℝ))] := by
    simp [pcCentered, pcCentroid, npMean3, pcXyz, w7pc, v3div, Prod.ext_iff]
  rw [normDivisor, hc]
  simp [v3norm, sqNorm, npMaxR]

/-- Witness for `pc_norm_postconditions`: two opposite unit points. -/
theorem pc_norm_postconditions_witness :
    (∀ row ∈ pc_norm w7pc, v3norm row.1 ≤ 1) ∧
    npMaxR ((pc_norm w7pc).map (fun row => v3norm row.1)) = 1 ∧
    npMean3 ((pc_norm w7pc).map Prod.fst) = ((0 : ℝ), (0 : ℝ), (0 : ℝ)) ∧
    (pc_norm w7pc).map Prod.snd = pcAttrs w7pc :=
  pc_norm_postconditions w7pc (by simp [w7pc])
    (by rw [w7pc_normDivisor]; exact one_ne_zero)

/-- Witness for `convert_single_row_raises`: a single 6-field point row. -/
theorem convert_single_row_raises_witness :
    convert_bridge_data [[1, 2, 3, 4, 5, 6]] false [] =
      .error .sampleAccessError :=
  convert_single_row_raises [1, 2, 3, 4, 5, 6] false []
